import Mathlib

set_option maxHeartbeats 1000000

/-! Verification of the idea-store / markdown / evaluation pipeline of
`promethius_mindmap.py` (Promethius small Business Case app), as a shallow
embedding in Lean. Python dicts are modelled as insertion-ordered association
lists, the file system as explicit state values, and the evaluation client as
an oracle parameter. -/

/-! ## Python string primitives -/

/-- Whitespace characters as recognized by Python `str.strip()` and by the
`\s` class of the score regex (ASCII whitespace plus the Unicode separator
characters that can occur here). -/
def isPySpace (c : Char) : Bool :=
  c == ' ' || c == '\t' || c == '\n' || c == '\r' || c == '\x0b' || c == '\x0c' ||
  c == '\x1c' || c == '\x1d' || c == '\x1e' || c == '\x85' || c == '\u2028' || c == '\u2029'

/-- Characters at which Python `str.splitlines()` breaks a line (besides the
two-character sequence CR LF, which is handled as a single break). -/
def isLineBreakChar (c : Char) : Bool :=
  c == '\n' || c == '\r' || c == '\x0b' || c == '\x0c' ||
  c == '\x1c' || c == '\x1d' || c == '\x1e' || c == '\x85' || c == '\u2028' || c == '\u2029'

/-- Python `str.strip()`: drop leading and trailing whitespace. -/
def pyStrip (s : String) : String :=
  String.mk (((s.toList.dropWhile isPySpace).reverse.dropWhile isPySpace).reverse)

/-- Worker for `pySplitlines`. `acc` holds the characters of the current line,
reversed. A line terminator ends the current line; a terminator at the very end
of the input does not produce a trailing empty line, matching Python. -/
def slAux : List Char → List Char → List String
  | [], acc => if acc.isEmpty then [] else [String.mk acc.reverse]
  | '\r' :: '\n' :: rest, acc => String.mk acc.reverse :: slAux rest []
  | c :: rest, acc =>
    if isLineBreakChar c then String.mk acc.reverse :: slAux rest []
    else slAux rest (c :: acc)

/-- Python `str.splitlines()`. -/
def pySplitlines (s : String) : List String :=
  slAux s.toList []

/-- Python `"\n".join(lines)`. -/
def joinLines : List String → String
  | [] => ""
  | [x] => x
  | x :: y :: rest => x ++ "\n" ++ joinLines (y :: rest)

/-! ## Data model

An idea's record is its heading → text dict; the store maps idea name →
record. Both are Python dicts, modelled as insertion-ordered association
lists. -/

/-- One idea's record: heading → free text, in insertion order. -/
abbrev Idea := List (String × String)

/-- The idea store: idea name → record, in insertion order. -/
abbrev Store := List (String × Idea)

/-- The fixed heading list `HEADINGS` of the source (lines 22-29). -/
def HEADINGS : List String :=
  ["Description", "Complexity", "Competitors", "Synergy with Promethius",
   "Implementation Cost", "Risks"]

/-! ## Markdown renderer (source lines 78-93) -/

/-- The lines emitted for one heading by the loop body of `markdown_from_idea`
(source lines 80-86): a `###` line when the raw text is non-empty or
`show_empty` is set, then one `####` line per line of the text that is
non-blank after stripping. -/
def headingLines (head txt : String) (show_empty : Bool) : List String :=
  if txt != "" || show_empty then
    ("### " ++ head) ::
      (pySplitlines txt).filterMap (fun row =>
        let r := pyStrip row
        if r != "" then some ("#### " ++ r) else none)
  else []

/-- The `lines` list built by `markdown_from_idea` before the final join. -/
def ideaLines (name : String) (sections : Idea) (show_empty : Bool) : List String :=
  ("## " ++ name) :: (sections.map (fun p => headingLines p.1 p.2 show_empty)).flatten

/-- Source `markdown_from_idea` (lines 78-87). -/
def markdown_from_idea (name : String) (sections : Idea) (show_empty : Bool) : String :=
  joinLines (ideaLines name sections show_empty)

/-- Source `build_mindmap_md` (lines 89-93). -/
def build_mindmap_md (ideas : Store) (show_empty : Bool) : String :=
  joinLines ("# Promethius small Business Case" ::
    ideas.map (fun p => markdown_from_idea p.1 p.2 show_empty))

/-! ## Renderer, as the specification words it (for claim C1) -/

/-- Claim C1's wording for one heading: the third-level line is emitted if and
only if the text is non-empty or `show_empty` is true, and each line of the
text that is non-blank after trimming gives one fourth-level line (blank lines
are dropped entirely). -/
def specHeadingLines (head txt : String) (show_empty : Bool) : List String :=
  (if txt ≠ "" ∨ show_empty = true then ["### " ++ head] else []) ++
    (pySplitlines txt).filterMap (fun row =>
      if pyStrip row ≠ "" then some ("#### " ++ pyStrip row) else none)

/-- Claim C1's wording for the whole document, as a flat list of lines: one
title line, then per idea a `##` line followed by its heading blocks. -/
def specRenderLines (ideas : Store) (show_empty : Bool) : List String :=
  "# Promethius small Business Case" ::
    (ideas.map (fun p =>
      ("## " ++ p.1) :: (p.2.map (fun q => specHeadingLines q.1 q.2 show_empty)).flatten)).flatten

/-! ## Score extractor (source lines 95-97)

Operational embedding of Python
`re.search(r"\b([1-9]|10)\s*/\s*10\b|\b([1-9]|10)\b(?=.*score)", md, re.I)`:
`re.search` tries each start position left to right and, at each position,
the first alternative before the second; inside the group `[1-9]` is tried
before `10`, with backtracking into the continuation. -/

/-- Word characters for the regex `\b` assertion (ASCII `\w`). -/
def isWordChar (c : Char) : Bool :=
  c.isAlphanum || c == '_'

/-- Is a `\b` assertion satisfied just before a word character, given the
previous character (`none` at the start of the text)? -/
def boundaryBeforeWord (prev : Option Char) : Bool :=
  match prev with
  | none => true
  | some c => !(isWordChar c)

/-- Is a `\b` assertion satisfied just after a word character, given the rest
of the text? -/
def boundaryAfterWord (rest : List Char) : Bool :=
  match rest with
  | [] => true
  | c :: _ => !(isWordChar c)

/-- The second branch of the group `([1-9]|10)` after backtracking: the `10`
alternative, taken when the first character was `1`. -/
def groupTen (rest : List Char) (k : List Char → Bool) : Option Nat :=
  match rest with
  | '0' :: rest2 => if k rest2 then some 10 else none
  | _ => none

/-- The group `([1-9]|10)` with continuation `k` on the remaining text: try the
single digit first; if the continuation fails and the digit was `1`, backtrack
and try `10` (via `groupTen`). Returns the captured value when the whole
attempt succeeds. -/
def groupMatch (l : List Char) (k : List Char → Bool) : Option Nat :=
  match l with
  | [] => none
  | c :: rest =>
    if '1' ≤ c ∧ c ≤ '9' then
      if k rest then some (c.toNat - '0'.toNat)
      else if c == '1' then groupTen rest k
      else none
    else none

/-- The tail `\s*/\s*10\b` of the first alternative. Since `/` and `1` are not
whitespace, the greedy `\s*` never needs to backtrack. -/
def matchSlashTen (l : List Char) : Bool :=
  match l.dropWhile isPySpace with
  | '/' :: rest =>
    match rest.dropWhile isPySpace with
    | '1' :: '0' :: rest2 => boundaryAfterWord rest2
    | _ => false
  | _ => false

/-- Does `score` (case-insensitively) start right here? -/
def startsWithScore (l : List Char) : Bool :=
  match l with
  | a :: b :: c :: d :: e :: _ =>
    a.toLower == 's' && b.toLower == 'c' && c.toLower == 'o' &&
    d.toLower == 'r' && e.toLower == 'e'
  | _ => false

/-- The lookahead `(?=.*score)` with `re.I`: `score` must occur at or after the
current position with no newline before it (`.` does not match `\n`). -/
def lookaheadScore : List Char → Bool
  | [] => false
  | c :: rest => startsWithScore (c :: rest) || (c != '\n' && lookaheadScore rest)

/-- First alternative `\b([1-9]|10)\s*/\s*10\b` at one start position. -/
def altSlashTen (prev : Option Char) (l : List Char) : Option Nat :=
  if boundaryBeforeWord prev then groupMatch l matchSlashTen else none

/-- Second alternative `\b([1-9]|10)\b(?=.*score)` at one start position. -/
def altBareScore (prev : Option Char) (l : List Char) : Option Nat :=
  if boundaryBeforeWord prev then
    groupMatch l (fun rest => boundaryAfterWord rest && lookaheadScore rest)
  else none

/-- One match attempt of the whole pattern at one start position: the first
alternative is preferred over the second. -/
def tryAt (prev : Option Char) (l : List Char) : Option Nat :=
  match altSlashTen prev l with
  | some n => some n
  | none => altBareScore prev l

/-- The scan of `re.search`: try each start position from left to right. (Both
alternatives need at least one character, so the end-of-text position, where
any attempt fails, is elided.) -/
def searchAux (prev : Option Char) : List Char → Option Nat
  | [] => none
  | c :: rest =>
    match tryAt prev (c :: rest) with
    | some n => some n
    | none => searchAux (some c) rest

/-- Source `extract_score` (lines 95-97): the captured group of the first
match, as a number, or `none` when the pattern does not occur. -/
def extract_score (md : String) : Option Nat :=
  searchAux none md.toList

/-! ## Score extractor, as the specification words it (for claim C2) -/

/-- A whole-pattern match attempt at position `i` of the text. -/
def matchAtPos (s : List Char) (i : Nat) : Option Nat :=
  tryAt ((s.take i).getLast?) (s.drop i)

/-- The claim's wording: the value of the first (earliest-position) match, with
the `N/10` alternative preferred at each position. -/
def extract_score_spec (md : String) : Option Nat :=
  (List.range (md.toList.length + 1)).findSome? (fun i => matchAtPos md.toList i)

/-! ## Dict primitives for the store -/

/-- Lookup in an insertion-ordered dict (first entry with the key). -/
def alookup (l : List (String × α)) (k : String) : Option α :=
  match l with
  | [] => none
  | p :: rest => if p.1 == k then some p.2 else alookup rest k

/-- Python `k in d`. -/
def hasKey (l : List (String × α)) (k : String) : Bool :=
  match l with
  | [] => false
  | p :: rest => p.1 == k || hasKey rest k

/-- Python `d[k] = v`: replace in place when the key is present (its position
is kept), otherwise append at the end. -/
def dictSet (l : List (String × α)) (k : String) (v : α) : List (String × α) :=
  if hasKey l k then l.map (fun p => if p.1 == k then (k, v) else p)
  else l ++ [(k, v)]

/-- Python `d.pop(k)`, as far as the remaining dict is concerned (a dict has at
most one entry per key). -/
def removeKey (l : List (String × α)) (k : String) : List (String × α) :=
  match l with
  | [] => []
  | p :: rest => if p.1 == k then removeKey rest k else p :: removeKey rest k

/-! ## Store operations (source `main`, lines 139-145, 191-195, 204-207) -/

/-- A fresh record `{h: "" for h in HEADINGS}` (source lines 62-64, 144). -/
def defaultIdea : Idea :=
  HEADINGS.map (fun h => (h, ""))

/-- Outcome of the add-idea handler: the button is disabled for a
whitespace-only name, a present name shows the error `Idea already exists`,
otherwise the new idea is inserted. -/
inductive AddMsg where
  | disabled
  | duplicateError
  | added
deriving DecidableEq

/-- The add-idea handler (source lines 139-145): the button is disabled when
`not new_name.strip()`; an existing name (exact `in` test) is rejected with an
error; otherwise `ideas[new_name] = {h: "" for h in HEADINGS}`. The returned
store is the session state afterwards. -/
def add (d : Store) (name : String) : AddMsg × Store :=
  if pyStrip name == "" then (.disabled, d)
  else if hasKey d name then (.duplicateError, d)
  else (.added, d ++ [(name, defaultIdea)])

/-- The rename handler (source lines 191-195): nothing happens while the typed
name equals the current one; otherwise
`ideas[new_title] = ideas.pop(idea)`. The handler only runs for an existing
`idea` key, so a missing `old` (Python would raise `KeyError`) is modelled as
leaving the store unchanged. -/
def rename (d : Store) (old new : String) : Store :=
  if new == old then d
  else
    match alookup d old with
    | some v => dictSet (removeKey d old) new v
    | none => d

/-- The delete handler (source lines 204-207): `ideas.pop(idea)`. -/
def delete (d : Store) (name : String) : Store :=
  removeKey d name

/-- The per-heading editor callback (source lines 197-202):
`sections.update({h: ...})` on the record stored under `name`. -/
def update_heading (d : Store) (name heading txt : String) : Store :=
  d.map (fun p => if p.1 == name then (p.1, dictSet p.2 heading txt) else p)

/-- Does every record of the store carry exactly the fixed heading list, in
order? (The invariant of claim C9.) -/
def headingsOk (d : Store) : Bool :=
  d.all (fun p => p.2.map Prod.fst == HEADINGS)

/-! ## JSON persistence (source lines 47-66) -/

/-- A parsed JSON document. -/
inductive JsonValue where
  | null
  | bool (b : Bool)
  | num (n : Int)
  | str (s : String)
  | arr (elems : List JsonValue)
  | obj (fields : List (String × JsonValue))

/-- What the ideas file on disk can hold: nothing, bytes that are not valid
JSON, or a parsed JSON document. -/
inductive FileState where
  | absent
  | malformed
  | valid (j : JsonValue)

/-- The error `json.load` raises on a file that is not valid JSON
(`json.JSONDecodeError`); nothing in the source catches it. -/
inductive LoadError where
  | jsonDecodeError

/-- Source `_load_json` (lines 47-51): parse the file when it exists, raise on
malformed contents, return the default when the file is absent. -/
def _load_json (fs : FileState) (default : JsonValue) : Except LoadError JsonValue :=
  match fs with
  | .absent => .ok default
  | .malformed => .error .jsonDecodeError
  | .valid j => .ok j

/-- The JSON form of a fresh record `{h: "" for h in HEADINGS}`. -/
def emptyIdeaJson : JsonValue :=
  .obj (HEADINGS.map (fun h => (h, .str "")))

/-- The seed-idea names of `load_ideas` (source lines 62-64). -/
def seedNames : List String :=
  ["Tracker for Poker", "GTO Clickable-Map", "Interactive AI Hub"]

/-- The built-in default store of `load_ideas`. -/
def seedIdeas : JsonValue :=
  .obj (seedNames.map (fun n => (n, emptyIdeaJson)))

/-- Source `load_ideas` (lines 58-66). -/
def load_ideas (fs : FileState) : Except LoadError JsonValue :=
  _load_json fs seedIdeas

/-- Does a JSON document have the name → object-of-strings shape the
specification expects of the ideas file? -/
def isStrField (p : String × JsonValue) : Bool :=
  match p.2 with
  | .str _ => true
  | _ => false

/-- Is a JSON value an object whose fields are all strings? -/
def isIdeaObj (j : JsonValue) : Bool :=
  match j with
  | .obj fields => fields.all isStrField
  | _ => false

/-- The expected shape of the ideas document: an object of idea objects. -/
def expectedShape (j : JsonValue) : Bool :=
  match j with
  | .obj entries => entries.all (fun p => isIdeaObj p.2)
  | _ => false

/-! ## Evaluation log (source lines 72-75) -/

/-- One evaluation record, with the fields written at source lines 156-164. -/
structure EvalEntry where
  timestamp : String
  mode : String
  score : Option Nat
  markdown : String
  model : String

/-- The evaluations file: `none` when it does not exist yet. (JSON
serialization of well-formed entries round-trips and is modelled as the
identity.) -/
abbrev LogFile := Option (List EvalEntry)

/-- Loading the log: `_load_json(EVAL_PATH, [])` (source line 73). -/
def load_log (fs : LogFile) : List EvalEntry :=
  match fs with
  | none => []
  | some entries => entries

/-- Source `append_evaluation` (lines 72-75): load, append, rewrite. -/
def append_evaluation (fs : LogFile) (entry : EvalEntry) : LogFile :=
  some (load_log fs ++ [entry])

/-! ## Evaluation client (source lines 100-123 and 126-128) -/

/-- One chat message. -/
structure ChatMessage where
  role : String
  content : String

/-- The request `gpt_evaluate` hands to `client.chat.completions.create`. -/
structure ChatRequest where
  model : String
  messages : List ChatMessage
  max_tokens : Nat

/-- Source `MODEL_NAME` (line 34). -/
def MODEL_NAME : String := "gpt-4.5-preview"

/-- Source `FOUNDER_PROFILE` (lines 36-41). -/
def FOUNDER_PROFILE : String :=
  "Jakob is an accomplished poker player, proficient in Python " ++
  "and highly skilled in AI. Promethius Poker is an established " ++
  "poker-community and training platform.  The goal is for Jakob " ++
  "and Promethius to collaborate on a product/service for poker players."

/-- The base system instruction of `gpt_evaluate` (lines 101-106). -/
def SYSTEM_BASE : String :=
  "You are a senior VC analyst. Evaluate the business-case mind-map the user " ++
  "provides.  Cover: market size, competitors, synergy with Promethius Poker, " ++
  "synergy with Jakob\x27s poker/AI skills, implementation cost, complexity, risks, " ++
  "and give a 1–10 score with a short recommendation. Answer in markdown (H2 headings)."

/-- The addition to the system instruction in deep mode (lines 107-112). -/
def DEEP_SUFFIX : String :=
  "\n\nThink step-by-step, search publicly available info on Promethius Poker " ++
  "and the broader poker SAAS landscape, cite concrete numbers where possible, " ++
  "and provide more granular analysis."

/-- The system instruction actually sent: the base, extended in deep mode. -/
def systemPrompt (deep : Bool) : String :=
  if deep then SYSTEM_BASE ++ DEEP_SUFFIX else SYSTEM_BASE

/-- The request built by `gpt_evaluate` (source lines 114-122). -/
def mkRequest (md : String) (deep : Bool) : ChatRequest :=
  { model := MODEL_NAME
    messages := [⟨"system", systemPrompt deep⟩, ⟨"user", FOUNDER_PROFILE⟩, ⟨"user", md⟩]
    max_tokens := if deep then 1400 else 800 }

/-- Source `gpt_evaluate` (lines 100-123), with the remote endpoint as an
oracle: the call either returns the completion text or fails with a transport
or remote error, which the source does not catch. -/
def gpt_evaluate (remote : ChatRequest → Except String String)
    (md : String) (deep : Bool) : Except String String :=
  remote (mkRequest md deep)

/-- Outcome of one evaluation run as seen by the caller of `main`'s button
handlers. -/
inductive EvalOutcome (α : Type) where
  | unavailable
  | evalFailed (cause : String)
  | ok (a : α)

/-- Modelled from the spec: the external chat-completion client is constructed
from the credential variable (source line 128,
`OpenAI(api_key=os.getenv("OPENAI_API_KEY"))`) and its constructor fails when
no key is configured; the library itself is not part of the repository. The
source catches nothing, so a construction failure and a transport failure both
propagate to the caller unchanged, as distinct outcomes. -/
def runEvaluation (apiKey : Option String)
    (remote : ChatRequest → Except String String)
    (md : String) (deep : Bool) : EvalOutcome String :=
  match apiKey with
  | none => .unavailable
  | some _ =>
    match gpt_evaluate remote md deep with
    | .error cause => .evalFailed cause
    | .ok text => .ok text

/-- Does one string occur inside another (for checking the wording of the deep
instruction)? -/
def hasSubstr (l pat : List Char) : Bool :=
  match l with
  | [] => pat.isEmpty
  | _ :: rest => pat.isPrefixOf l || hasSubstr rest pat

/-! ## Helper lemmas -/

theorem joinLines_append (a b : List String) (ha : a ≠ []) (hb : b ≠ []) :
    joinLines (a ++ b) = joinLines a ++ "\n" ++ joinLines b := by
  induction a with
  | nil => exact absurd rfl ha
  | cons x xs ih =>
    cases xs with
    | nil =>
      cases b with
      | nil => exact absurd rfl hb
      | cons y ys => simp [joinLines]
    | cons z zs =>
      have h2 := ih (by simp)
      simp only [List.cons_append] at h2 ⊢
      simp only [joinLines] at h2 ⊢
      rw [h2]
      simp [String.append_assoc]

theorem joinLines_flatten (L : List (List String)) (h : ∀ x ∈ L, x ≠ []) :
    joinLines (L.map joinLines) = joinLines L.flatten := by
  induction L with
  | nil => rfl
  | cons a t ih =>
    cases t with
    | nil => simp [joinLines]
    | cons b u =>
      have ha : a ≠ [] := h a (by simp)
      have hb : (b :: u).flatten ≠ [] := by
        have hbne : b ≠ [] := h b (by simp)
        cases b with
        | nil => exact absurd rfl hbne
        | cons c cs => simp
      have ih2 := ih (fun x hx => h x (by simp [hx]))
      calc joinLines ((a :: b :: u).map joinLines)
          = joinLines a ++ "\n" ++ joinLines ((b :: u).map joinLines) := by
            simp only [List.map_cons, joinLines]
        _ = joinLines a ++ "\n" ++ joinLines (b :: u).flatten := by rw [ih2]
        _ = joinLines (a ++ (b :: u).flatten) := (joinLines_append _ _ ha hb).symm
        _ = joinLines (a :: b :: u).flatten := by simp

theorem specHeadingLines_eq (head txt : String) (se : Bool) :
    specHeadingLines head txt se = headingLines head txt se := by
  by_cases h : txt = ""
  · subst h
    have h0 : pySplitlines "" = [] := rfl
    cases se <;> simp [specHeadingLines, headingLines, h0]
  · have hne : (txt != "") = true := by simp [h]
    simp [specHeadingLines, headingLines, h, hne]

theorem ideaLines_spec (p : String × Idea) (se : Bool) :
    ("## " ++ p.1) :: (p.2.map (fun q => specHeadingLines q.1 q.2 se)).flatten =
      ideaLines p.1 p.2 se := by
  unfold ideaLines
  congr 1
  congr 1
  exact List.map_congr_left (fun q _ => specHeadingLines_eq q.1 q.2 se)

/-! ## Claim theorems -/

/-- C1: for every idea mapping and flag, the rendered markdown is exactly the
newline-join of: one top-level title line; then, per idea in store order, a
`##` line with the idea's name; then, per stored heading, a `###` line emitted
iff the text is non-empty or `show_empty` holds, with one `####` line per
non-blank-after-trimming line of the text. In particular, with
`show_empty = true` every stored heading of every idea appears among the
rendered lines. -/
theorem C1_render_structure :
    (∀ (ideas : Store) (show_empty : Bool),
      build_mindmap_md ideas show_empty = joinLines (specRenderLines ideas show_empty)) ∧
    (∀ (ideas : Store) (nm : String) (sec : Idea) (h t : String),
      (nm, sec) ∈ ideas → (h, t) ∈ sec →
      ("### " ++ h) ∈ specRenderLines ideas true) := by
  constructor
  · intro ideas se
    have hflat := joinLines_flatten
        (["# Promethius small Business Case"] :: ideas.map (fun p => ideaLines p.1 p.2 se))
        (by
          intro x hx
          rcases List.mem_cons.mp hx with h1 | h2
          · subst h1; simp
          · obtain ⟨p, hp, rfl⟩ := List.mem_map.mp h2
            simp [ideaLines])
    have hlhs : build_mindmap_md ideas se =
        joinLines ((["# Promethius small Business Case"] ::
          ideas.map (fun p => ideaLines p.1 p.2 se)).map joinLines) := by
      simp only [build_mindmap_md, markdown_from_idea, List.map_cons, List.map_map]
      rfl
    have hrhs : specRenderLines ideas se =
        (["# Promethius small Business Case"] ::
          ideas.map (fun p => ideaLines p.1 p.2 se)).flatten := by
      simp only [specRenderLines, List.flatten_cons, List.singleton_append]
      congr 1
      congr 1
      exact List.map_congr_left (fun p _ => ideaLines_spec p se)
    rw [hlhs, hflat, hrhs]
  · intro ideas nm sec h t hmem hsec
    have h1 : ("### " ++ h) ∈ specHeadingLines h t true := by
      simp [specHeadingLines]
    have h2 : specHeadingLines h t true ∈ sec.map (fun q => specHeadingLines q.1 q.2 true) :=
      List.mem_map.mpr ⟨(h, t), hsec, rfl⟩
    have h3 : ("### " ++ h) ∈ (sec.map (fun q => specHeadingLines q.1 q.2 true)).flatten :=
      List.mem_flatten.mpr ⟨_, h2, h1⟩
    have h4 : (("## " ++ nm) :: (sec.map (fun q => specHeadingLines q.1 q.2 true)).flatten) ∈
        ideas.map (fun p =>
          ("## " ++ p.1) :: (p.2.map (fun q => specHeadingLines q.1 q.2 true)).flatten) :=
      List.mem_map.mpr ⟨(nm, sec), hmem, rfl⟩
    exact List.mem_cons_of_mem _
      (List.mem_flatten.mpr ⟨_, h4, List.mem_cons_of_mem _ h3⟩)

/-- Witness for C1 at a concrete store: the heading line of the only idea's
only heading appears among the rendered lines when `show_empty` is true. -/
theorem C1_render_structure_witness :
    ("### " ++ "Description") ∈ specRenderLines [("A", [("Description", "x")])] true :=
  C1_render_structure.2 [("A", [("Description", "x")])] "A" [("Description", "x")]
    "Description" "x" (by simp) (by simp)

theorem toList_mk (l : List Char) : (String.mk l).toList = l := rfl

theorem slAux_all_space : ∀ (l acc : List Char),
    (∀ c ∈ l, isPySpace c = true) → (∀ c ∈ acc, isPySpace c = true) →
    ∀ s ∈ slAux l acc, ∀ c ∈ s.toList, isPySpace c = true := by
  intro l acc
  induction l, acc using slAux.induct with
  | case1 acc hemp =>
    intro _ _ s hs
    rw [slAux.eq_1, if_pos hemp] at hs
    simp at hs
  | case2 acc hemp =>
    intro _ hacc s hs c hc
    rw [slAux.eq_1, if_neg hemp] at hs
    simp only [List.mem_singleton] at hs
    subst hs
    rw [toList_mk] at hc
    exact hacc c (List.mem_reverse.mp hc)
  | case3 rest acc ih =>
    intro hl hacc s hs c hc
    rw [slAux.eq_2] at hs
    rcases List.mem_cons.mp hs with h1 | h2
    · subst h1
      rw [toList_mk] at hc
      exact hacc c (List.mem_reverse.mp hc)
    · exact ih (fun d hd => hl d (by simp [hd])) (by simp) s h2 c hc
  | case4 ch rest acc hne hbr ih =>
    intro hl hacc s hs c hc
    rw [slAux.eq_3 _ _ _ hne, if_pos hbr] at hs
    rcases List.mem_cons.mp hs with h1 | h2
    · subst h1
      rw [toList_mk] at hc
      exact hacc c (List.mem_reverse.mp hc)
    · exact ih (fun d hd => hl d (by simp [hd])) (by simp) s h2 c hc
  | case5 ch rest acc hne hbr ih =>
    intro hl hacc s hs c hc
    rw [slAux.eq_3 _ _ _ hne, if_neg hbr] at hs
    refine ih (fun d hd => hl d (by simp [hd])) ?_ s hs c hc
    intro d hd
    rcases List.mem_cons.mp hd with h1 | h2
    · subst h1; exact hl d (by simp)
    · exact hacc d h2

theorem pyStrip_eq_empty (s : String) (h : ∀ c ∈ s.toList, isPySpace c = true) :
    pyStrip s = "" := by
  unfold pyStrip
  have h1 : s.toList.dropWhile isPySpace = [] :=
    List.dropWhile_eq_nil_iff.mpr h
  rw [h1]
  rfl

/-- C10: a heading whose text is non-empty but all whitespace (a space, a lone
newline, ...) is still rendered with `show_empty = false`: its `###` line is
emitted with no `####` children, because the emission test is on the raw,
untrimmed text. -/
theorem C10_whitespace_only_heading (name h t : String) (sec : Idea)
    (hne : t ≠ "") (hsp : ∀ c ∈ t.toList, isPySpace c = true)
    (hmem : (h, t) ∈ sec) :
    headingLines h t false = ["### " ++ h] ∧
      ("### " ++ h) ∈ ideaLines name sec false := by
  have hcond : (t != "") = true := by simp [hne]
  have hlines : headingLines h t false = ["### " ++ h] := by
    have hrows : ∀ row ∈ pySplitlines t, pyStrip row = "" := by
      intro row hrow
      apply pyStrip_eq_empty
      intro c hc
      exact slAux_all_space t.toList [] hsp (by simp) row hrow c hc
    have hnil : (pySplitlines t).filterMap
        (fun row =>
          let r := pyStrip row
          if r != "" then some ("#### " ++ r) else none) = [] := by
      apply List.filterMap_eq_nil_iff.mpr
      intro row hrow
      simp [hrows row hrow]
    simp only [headingLines, hcond, Bool.true_or, if_pos]
    rw [hnil]
  refine ⟨hlines, ?_⟩
  have h2 : headingLines h t false ∈ sec.map (fun q => headingLines q.1 q.2 false) :=
    List.mem_map.mpr ⟨(h, t), hmem, rfl⟩
  have h3 : ("### " ++ h) ∈ (sec.map (fun q => headingLines q.1 q.2 false)).flatten :=
    List.mem_flatten.mpr ⟨_, h2, by simp [hlines]⟩
  exact List.mem_cons_of_mem _ h3

/-- Witness for C10: the `Risks` heading with text a single space is rendered
with `show_empty = false` and has no `####` children. -/
theorem C10_whitespace_only_heading_witness :
    headingLines "Risks" " " false = ["### " ++ "Risks"] ∧
      ("### " ++ "Risks") ∈ ideaLines "A" [("Risks", " ")] false :=
  C10_whitespace_only_heading "A" "Risks" " " [("Risks", " ")]
    (by decide) (by decide) (by simp)

theorem groupMatch_nil (k : List Char → Bool) : groupMatch [] k = none := rfl

theorem altSlashTen_nil (prev : Option Char) : altSlashTen prev [] = none := by
  simp [altSlashTen, groupMatch_nil]

theorem altBareScore_nil (prev : Option Char) : altBareScore prev [] = none := by
  simp [altBareScore, groupMatch_nil]

theorem tryAt_nil (prev : Option Char) : tryAt prev [] = none := by
  simp [tryAt, altSlashTen_nil, altBareScore_nil]

theorem searchAux_eq_findSome : ∀ (l pre : List Char),
    searchAux pre.getLast? l =
      (List.range (l.length + 1)).findSome?
        (fun i => matchAtPos (pre ++ l) (pre.length + i)) := by
  intro l
  induction l with
  | nil =>
    intro pre
    have h0 : matchAtPos (pre ++ []) (pre.length + 0) = none := by
      simp [matchAtPos, List.take_length, List.drop_length, tryAt_nil]
    have h1 : List.range (List.length ([] : List Char) + 1) = [0] := rfl
    rw [h1, List.findSome?_cons, h0]
    rfl
  | cons c rest ih =>
    intro pre
    have hf0 : matchAtPos (pre ++ c :: rest) (pre.length + 0) =
        tryAt pre.getLast? (c :: rest) := by
      simp only [matchAtPos, Nat.add_zero, List.take_left, List.drop_left]
    have hrange : List.range (rest.length + 1 + 1) =
        0 :: (List.range (rest.length + 1)).map Nat.succ :=
      List.range_succ_eq_map _
    cases htry : tryAt pre.getLast? (c :: rest) with
    | some n =>
      rw [searchAux, htry, List.length_cons, hrange, List.findSome?_cons, hf0, htry]
    | none =>
      rw [searchAux, htry, List.length_cons, hrange, List.findSome?_cons, hf0, htry,
        List.findSome?_map]
      show searchAux (some c) rest =
        (List.range (rest.length + 1)).findSome?
          ((fun i => matchAtPos (pre ++ c :: rest) (pre.length + i)) ∘ Nat.succ)
      have ih2 := ih (pre ++ [c])
      rw [List.getLast?_concat] at ih2
      rw [ih2]
      congr 1
      funext i
      have hlist : (pre ++ [c]) ++ rest = pre ++ c :: rest := by simp
      have harg : (pre ++ [c]).length + i = pre.length + (i + 1) := by
        simp [List.length_append]
        omega
      rw [hlist, harg]
      simp [Function.comp]

theorem groupTen_range (rest : List Char) (k : List Char → Bool) (n : Nat)
    (h : groupTen rest k = some n) : n = 10 := by
  cases rest with
  | nil => simp [groupTen] at h
  | cons r0 rtail =>
    by_cases h0 : r0 = '0'
    · subst h0
      rw [show groupTen ('0' :: rtail) k = if k rtail then some 10 else none from rfl] at h
      split at h
      · exact (Option.some.inj h).symm
      · exact absurd h (by simp)
    · rw [groupTen.eq_2 _ _
        (fun rest2 hx => h0 (by simpa using congrArg List.head? hx))] at h
      exact absurd h (by simp)

theorem groupMatch_range (l : List Char) (k : List Char → Bool) (n : Nat)
    (h : groupMatch l k = some n) : 1 ≤ n ∧ n ≤ 10 := by
  cases l with
  | nil => simp [groupMatch] at h
  | cons c rest =>
    rw [groupMatch] at h
    split at h
    case isTrue hc =>
      have hlo : 49 ≤ c.toNat := by
        have := Char.le_def.mp hc.1
        simpa [Char.toNat] using this
      have hhi : c.toNat ≤ 57 := by
        have := Char.le_def.mp hc.2
        simpa [Char.toNat] using this
      have h48 : ('0' : Char).toNat = 48 := rfl
      split at h
      · have hval : c.toNat - '0'.toNat = n := Option.some.inj h
        omega
      · split at h
        · have hval := groupTen_range rest k n h
          omega
        · exact absurd h (by simp)
    case isFalse => exact absurd h (by simp)

theorem altSlashTen_range (prev : Option Char) (l : List Char) (n : Nat)
    (h : altSlashTen prev l = some n) : 1 ≤ n ∧ n ≤ 10 := by
  rw [altSlashTen] at h
  split at h
  · exact groupMatch_range _ _ _ h
  · simp at h

theorem altBareScore_range (prev : Option Char) (l : List Char) (n : Nat)
    (h : altBareScore prev l = some n) : 1 ≤ n ∧ n ≤ 10 := by
  rw [altBareScore] at h
  split at h
  · exact groupMatch_range _ _ _ h
  · simp at h

theorem tryAt_range (prev : Option Char) (l : List Char) (n : Nat)
    (h : tryAt prev l = some n) : 1 ≤ n ∧ n ≤ 10 := by
  rw [tryAt] at h
  cases h1 : altSlashTen prev l with
  | some m =>
    rw [h1] at h
    cases h
    exact altSlashTen_range _ _ _ h1
  | none =>
    rw [h1] at h
    exact altBareScore_range _ _ _ h

theorem searchAux_range : ∀ (l : List Char) (prev : Option Char) (n : Nat),
    searchAux prev l = some n → 1 ≤ n ∧ n ≤ 10 := by
  intro l
  induction l with
  | nil =>
    intro prev n h
    simp [searchAux] at h
  | cons c rest ih =>
    intro prev n h
    rw [searchAux] at h
    cases htry : tryAt prev (c :: rest) with
    | some m =>
      rw [htry] at h
      cases h
      exact tryAt_range _ _ _ htry
    | none =>
      rw [htry] at h
      exact ih (some c) n h

/-- C2 counterexample: the lookahead `(?=.*score)` neither crosses a newline
nor requires `score` to stand as a whole word, so the claim's reading of
"followed later in the text by the literal word score" fails on the code:
on `"8\nscore"` (where the word `score` does occur later in the text) the
extractor returns nothing, and on `"8 scores"` (where the word `score` does
not occur) it returns 8. -/
theorem C2_claim_counterexample :
    extract_score "8\nscore" = none ∧ extract_score "8 scores" = some 8 := by
  constructor
  · rfl
  · rfl

/-- C2 (amended): `extract_score` returns the value of the first
(earliest-position) match of the two regex alternatives, trying at each
position the `N/10` alternative before the bare-integer alternative (whose
lookahead requires `score`, case-insensitively and as a bare character
sequence, to occur later with no intervening newline); any value returned is
between 1 and 10; it returns 8 on the spec's bare-integer example and nothing
when no pattern occurs. -/
theorem C2_extract_score_first_match :
    (∀ md : String, extract_score md = extract_score_spec md) ∧
    (∀ (md : String) (n : Nat), extract_score md = some n → 1 ≤ n ∧ n ≤ 10) ∧
    extract_score "I\x27d give this idea an 8 for its score potential" = some 8 ∧
    extract_score "No numeric rating given" = none := by
  refine ⟨?_, ?_, rfl, rfl⟩
  · intro md
    have h := searchAux_eq_findSome md.toList []
    simpa [extract_score, extract_score_spec] using h
  · intro md n h
    exact searchAux_range md.toList none n h

/-- Witness for C2: the extractor's result on the spec's example is within
1..10, via the amended theorem at that concrete input. -/
theorem C2_extract_score_first_match_witness : 1 ≤ 8 ∧ 8 ≤ 10 :=
  C2_extract_score_first_match.2.1
    "I\x27d give this idea an 8 for its score potential" 8 (by rfl)

theorem alookup_eq_none_iff (l : List (String × α)) (k : String) :
    alookup l k = none ↔ hasKey l k = false := by
  induction l with
  | nil => simp [alookup, hasKey]
  | cons p rest ih =>
    by_cases hpk : (p.1 == k) = true
    · simp [alookup, hasKey, hpk]
    · simp only [Bool.not_eq_true] at hpk
      simp [alookup, hasKey, hpk, ih]

theorem mem_removeKey (l : List (String × α)) (k : String) (p : String × α)
    (h : p ∈ removeKey l k) : p ∈ l := by
  induction l with
  | nil => simp [removeKey] at h
  | cons q rest ih =>
    rw [removeKey] at h
    by_cases hq : (q.1 == k) = true
    · rw [if_pos hq] at h
      exact List.mem_cons_of_mem _ (ih h)
    · rw [if_neg hq] at h
      rcases List.mem_cons.mp h with h1 | h2
      · exact h1 ▸ List.mem_cons_self q rest
      · exact List.mem_cons_of_mem _ (ih h2)

theorem hasKey_removeKey_eq (l : List (String × α)) (k knot : String) (hne : k ≠ knot) :
    hasKey (removeKey l knot) k = hasKey l k := by
  induction l with
  | nil => rfl
  | cons p rest ih =>
    rw [removeKey]
    by_cases hp : (p.1 == knot) = true
    · rw [if_pos hp, ih, hasKey]
      have hk : (p.1 == k) = false := by
        have h1 : p.1 = knot := by simpa using hp
        rw [h1]
        exact beq_eq_false_iff_ne.mpr (Ne.symm hne)
      simp [hk]
    · rw [if_neg hp, hasKey, hasKey, ih]

theorem alookup_append_left_none (a b : List (String × α)) (k : String)
    (h : alookup a k = none) : alookup (a ++ b) k = alookup b k := by
  induction a with
  | nil => rfl
  | cons p rest ih =>
    rw [alookup] at h
    split at h
    · exact absurd h (by simp)
    · rw [List.cons_append, alookup]
      split
      · simp_all
      · exact ih h

theorem alookup_map_replace (l : List (String × α)) (k : String) (v : α)
    (h : hasKey l k = true) :
    alookup (l.map (fun p => if p.1 == k then (k, v) else p)) k = some v := by
  induction l with
  | nil => simp [hasKey] at h
  | cons p rest ih =>
    by_cases hp : (p.1 == k) = true
    · rw [List.map_cons, if_pos hp, alookup]
      simp
    · rw [hasKey, Bool.or_eq_true_iff] at h
      rcases h with h1 | h2
      · exact absurd h1 hp
      · rw [List.map_cons, if_neg hp, alookup, if_neg hp]
        exact ih h2

theorem alookup_dictSet_self (l : List (String × α)) (k : String) (v : α) :
    alookup (dictSet l k v) k = some v := by
  unfold dictSet
  split
  case isTrue h => exact alookup_map_replace l k v h
  case isFalse h =>
    have hnone : alookup l k = none :=
      (alookup_eq_none_iff l k).mpr (by simpa using h)
    rw [alookup_append_left_none _ _ _ hnone]
    simp [alookup]

theorem countP_key_zero (l : List (String × α)) (k : String)
    (h : hasKey l k = false) : l.countP (fun p => p.1 == k) = 0 := by
  induction l with
  | nil => rfl
  | cons p rest ih =>
    rw [hasKey, Bool.or_eq_false_iff] at h
    rw [List.countP_cons, ih h.2]
    simp [h.1]

theorem hasKey_iff_mem_keys (l : List (String × α)) (k : String) :
    hasKey l k = true ↔ k ∈ l.map Prod.fst := by
  induction l with
  | nil => simp [hasKey]
  | cons p rest ih =>
    have hiff : (p.1 == k) = true ↔ k = p.1 := by
      rw [beq_iff_eq]
      exact eq_comm
    rw [hasKey, Bool.or_eq_true_iff, ih, hiff, List.map_cons, List.mem_cons]

theorem alookup_mem (l : List (String × α)) (k : String) (v : α)
    (h : alookup l k = some v) : (k, v) ∈ l := by
  induction l with
  | nil => simp [alookup] at h
  | cons p rest ih =>
    rw [alookup] at h
    split at h
    case isTrue hp =>
      have h1 : p.1 = k := by simpa using hp
      have h2 : p.2 = v := Option.some.inj h
      have h3 : p = (k, v) := by
        cases p
        simp_all
      rw [← h3]
      exact List.mem_cons_self p rest
    case isFalse hp => exact List.mem_cons_of_mem _ (ih h)

theorem keys_map_replace (l : List (String × α)) (k : String) (v : α) :
    (l.map (fun p => if p.1 == k then (k, v) else p)).map Prod.fst = l.map Prod.fst := by
  induction l with
  | nil => rfl
  | cons p rest ih =>
    by_cases hp : (p.1 == k) = true
    · rw [List.map_cons, if_pos hp, List.map_cons, List.map_cons, ih]
      have h1 : p.1 = k := by simpa using hp
      simp [h1]
    · rw [List.map_cons, if_neg hp, List.map_cons, List.map_cons, ih]

theorem headingsOk_iff (d : Store) :
    headingsOk d = true ↔ ∀ p ∈ d, p.2.map Prod.fst = HEADINGS := by
  simp [headingsOk, List.all_eq_true]

/-- C3 counterexample: the rename handler has no duplicate check. Renaming
idea `A` to the already-present name `B` does not fail and does not leave the
mapping unchanged: it silently overwrites `B`'s record with `A`'s content and
the store shrinks to one entry, so the claimed `DuplicateNameError` outcome
(with no mutation) is false on the code. -/
theorem C3_claim_counterexample :
    rename [("A", [("Description", "a")]), ("B", [("Description", "b")])] "A" "B" =
      [("B", [("Description", "a")])] ∧
    rename [("A", [("Description", "a")]), ("B", [("Description", "b")])] "A" "B" ≠
      [("A", [("Description", "a")]), ("B", [("Description", "b")])] := by
  constructor
  · rfl
  · decide

/-- C3 (amended): `rename(mapping, old, new)` is a no-op when `old = new`; when
`new` is a fresh name, the renamed entry keeps its content, moves to key `new`
at the end of iteration order, and exactly one entry bears the new name; but
when `new` is a different name already present, the code does not fail with
`DuplicateNameError`: it silently overwrites the entry under `new` with the
renamed idea's content, in place at that entry's position, removing the old
key. -/
theorem C3_rename_behavior
    (d d' : Store) (old old' new new' : String) (v v' : Idea)
    (hv : alookup d old = some v) (hne : new ≠ old) (hfresh : alookup d new = none)
    (hv' : alookup d' old' = some v') (hne' : new' ≠ old')
    (hdup : hasKey d' new' = true) :
    rename d old old = d ∧
    rename d old new = removeKey d old ++ [(new, v)] ∧
    alookup (rename d old new) new = some v ∧
    (rename d old new).countP (fun p => p.1 == new) = 1 ∧
    rename d' old' new' =
      (removeKey d' old').map (fun p => if p.1 == new' then (new', v') else p) ∧
    alookup (rename d' old' new') new' = some v' := by
  have hbe : ¬((new == old) = true) := by simp [hne]
  have hbe' : ¬((new' == old') = true) := by simp [hne']
  have hdef : rename d old new = dictSet (removeKey d old) new v := by
    rw [rename, if_neg hbe, hv]
  have hdef' : rename d' old' new' = dictSet (removeKey d' old') new' v' := by
    rw [rename, if_neg hbe', hv']
  have hkfalse : hasKey (removeKey d old) new = false := by
    rw [hasKey_removeKey_eq d new old hne]
    exact (alookup_eq_none_iff d new).mp hfresh
  have hktrue : hasKey (removeKey d' old') new' = true := by
    rw [hasKey_removeKey_eq d' new' old' hne']
    exact hdup
  have happ : rename d old new = removeKey d old ++ [(new, v)] := by
    rw [hdef, dictSet, if_neg (by simp [hkfalse])]
  refine ⟨by simp [rename], happ, ?_, ?_, ?_, ?_⟩
  · rw [hdef]
    exact alookup_dictSet_self _ _ _
  · rw [happ, List.countP_append, countP_key_zero _ _ hkfalse]
    simp [List.countP_cons]
  · rw [hdef', dictSet, if_pos hktrue]
  · rw [hdef']
    exact alookup_dictSet_self _ _ _

/-- Witness for C3 at concrete stores: a rename to a fresh name moves the
entry to the end with content intact, and a rename to an existing name
silently overwrites it. -/
theorem C3_rename_behavior_witness :
    rename [("Tracker for Poker", defaultIdea)] "Tracker for Poker" "Tracker for Poker" =
      [("Tracker for Poker", defaultIdea)] ∧
    rename [("Tracker for Poker", defaultIdea)] "Tracker for Poker" "Poker Tracker" =
      removeKey [("Tracker for Poker", defaultIdea)] "Tracker for Poker" ++
        [("Poker Tracker", defaultIdea)] ∧
    alookup (rename [("Tracker for Poker", defaultIdea)] "Tracker for Poker" "Poker Tracker")
      "Poker Tracker" = some defaultIdea ∧
    (rename [("Tracker for Poker", defaultIdea)] "Tracker for Poker" "Poker Tracker").countP
      (fun p => p.1 == "Poker Tracker") = 1 ∧
    rename [("A", [("Description", "a")]), ("B", [("Description", "b")])] "A" "B" =
      (removeKey [("A", [("Description", "a")]), ("B", [("Description", "b")])] "A").map
        (fun p => if p.1 == "B" then ("B", [("Description", "a")]) else p) ∧
    alookup (rename [("A", [("Description", "a")]), ("B", [("Description", "b")])] "A" "B")
      "B" = some [("Description", "a")] :=
  C3_rename_behavior
    [("Tracker for Poker", defaultIdea)]
    [("A", [("Description", "a")]), ("B", [("Description", "b")])]
    "Tracker for Poker" "A" "Poker Tracker" "B" defaultIdea [("Description", "a")]
    (by rfl) (by decide) (by rfl) (by rfl) (by decide) (by rfl)

/-- C4: the add handler rejects a whitespace-only name (the add button is
disabled) and an already-present name (exact, case-sensitive `in` test; the
error `Idea already exists` is shown), in both cases leaving the store
completely unchanged — the two rejection outcomes realize the spec's
`DuplicateNameError`; otherwise it appends a new idea whose record is exactly
the fixed heading list each mapped to the empty string, after all existing
entries, which are preserved in order. -/
theorem C4_add_behavior (d₁ d₂ d₃ : Store) (n₁ n₂ n₃ : String)
    (h1 : pyStrip n₁ = "")
    (h2a : pyStrip n₂ ≠ "") (h2b : hasKey d₂ n₂ = true)
    (h3a : pyStrip n₃ ≠ "") (h3b : hasKey d₃ n₃ = false) :
    add d₁ n₁ = (AddMsg.disabled, d₁) ∧
    add d₂ n₂ = (AddMsg.duplicateError, d₂) ∧
    add d₃ n₃ = (AddMsg.added, d₃ ++ [(n₃, HEADINGS.map (fun h => (h, "")))]) := by
  refine ⟨?_, ?_, ?_⟩
  · rw [add, if_pos (by simp [h1])]
  · rw [add, if_neg (by simp [h2a]), if_pos h2b]
  · rw [add, if_neg (by simp [h3a]), if_neg (by simp [h3b])]
    rfl

/-- Witness for C4: a blank name and a duplicate name are rejected without
mutation; a fresh name is appended with all headings empty. -/
theorem C4_add_behavior_witness :
    add [] " " = (AddMsg.disabled, []) ∧
    add [("X", defaultIdea)] "X" = (AddMsg.duplicateError, [("X", defaultIdea)]) ∧
    add [] "X" = (AddMsg.added, [] ++ [("X", HEADINGS.map (fun h => (h, "")))]) :=
  C4_add_behavior [] [("X", defaultIdea)] [] " " "X" "X"
    (by rfl) (by decide) (by rfl) (by decide) (by rfl)

/-- C9: starting from a store in which every record carries exactly the fixed
heading list in order, each store operation — delete, add, rename (the rename
handler only fires for a present `old` key), and `update_heading` with a
recognized heading — preserves that invariant, and rename keeps the renamed
idea's heading-to-text content unchanged under its new key. -/
theorem C9_fixed_headings (d : Store) (name old new h txt : String) (v : Idea)
    (hok : headingsOk d = true) (hh : h ∈ HEADINGS) (hv : alookup d old = some v) :
    headingsOk (delete d name) = true ∧
    headingsOk (add d name).2 = true ∧
    headingsOk (rename d old new) = true ∧
    headingsOk (update_heading d name h txt) = true ∧
    alookup (rename d old new) new = some v := by
  have hmem : ∀ p ∈ d, p.2.map Prod.fst = HEADINGS := (headingsOk_iff d).mp hok
  have hvh : v.map Prod.fst = HEADINGS := hmem (old, v) (alookup_mem d old v hv)
  refine ⟨?_, ?_, ?_, ?_, ?_⟩
  · rw [headingsOk_iff]
    intro p hp
    exact hmem p (mem_removeKey d name p hp)
  · rw [headingsOk_iff]
    intro p hp
    rw [add] at hp
    by_cases h1 : (pyStrip name == "") = true
    · rw [if_pos h1] at hp
      exact hmem p hp
    · rw [if_neg h1] at hp
      by_cases h2 : hasKey d name = true
      · rw [if_pos h2] at hp
        exact hmem p hp
      · rw [if_neg h2] at hp
        rcases List.mem_append.mp hp with h3 | h3
        · exact hmem p h3
        · rw [List.mem_singleton] at h3
          rw [h3]
          rfl
  · rw [headingsOk_iff]
    intro p hp
    by_cases hbe : (new == old) = true
    · rw [rename, if_pos hbe] at hp
      exact hmem p hp
    · rw [rename, if_neg hbe] at hp
      simp only [hv] at hp
      rw [dictSet] at hp
      by_cases hk : hasKey (removeKey d old) new = true
      · rw [if_pos hk] at hp
        rcases List.mem_map.mp hp with ⟨q, hq, hfq⟩
        by_cases hq1 : (q.1 == new) = true
        · rw [if_pos hq1] at hfq
          rw [← hfq]
          exact hvh
        · rw [if_neg hq1] at hfq
          rw [← hfq]
          exact hmem q (mem_removeKey d old q hq)
      · rw [if_neg hk] at hp
        rcases List.mem_append.mp hp with h3 | h3
        · exact hmem p (mem_removeKey d old p h3)
        · rw [List.mem_singleton] at h3
          rw [h3]
          exact hvh
  · rw [headingsOk_iff]
    intro p hp
    rw [update_heading] at hp
    rcases List.mem_map.mp hp with ⟨q, hq, hfq⟩
    by_cases hq1 : (q.1 == name) = true
    · rw [if_pos hq1] at hfq
      rw [← hfq]
      have hq2 : q.2.map Prod.fst = HEADINGS := hmem q hq
      have hkh : hasKey q.2 h = true := by
        rw [hasKey_iff_mem_keys, hq2]
        exact hh
      rw [dictSet, if_pos hkh, keys_map_replace]
      exact hq2
    · rw [if_neg hq1] at hfq
      rw [← hfq]
      exact hmem q hq
  · by_cases hbe : (new == old) = true
    · have heq : new = old := by simpa using hbe
      rw [rename, if_pos hbe, heq]
      exact hv
    · rw [rename, if_neg hbe]
      simp only [hv]
      exact alookup_dictSet_self _ _ _

/-- Witness for C9 at a concrete one-idea store: every operation preserves the
fixed heading list and rename keeps the content. -/
theorem C9_fixed_headings_witness :
    headingsOk (delete [("Tracker for Poker", defaultIdea)] "New") = true ∧
    headingsOk (add [("Tracker for Poker", defaultIdea)] "New").2 = true ∧
    headingsOk (rename [("Tracker for Poker", defaultIdea)]
      "Tracker for Poker" "Poker Tracker") = true ∧
    headingsOk (update_heading [("Tracker for Poker", defaultIdea)]
      "New" "Risks" "high") = true ∧
    alookup (rename [("Tracker for Poker", defaultIdea)]
      "Tracker for Poker" "Poker Tracker") "Poker Tracker" = some defaultIdea :=
  C9_fixed_headings [("Tracker for Poker", defaultIdea)]
    "New" "Tracker for Poker" "Poker Tracker" "Risks" "high" defaultIdea
    (by rfl) (by decide) (by rfl)

/-- C5: for every prior persisted log state — including an absent file, which
loads as the empty sequence — `append_evaluation` followed by a reload yields
exactly the prior sequence with the new entry at the end; in particular three
appends starting from no file reload as exactly those three entries in
insertion order, and no existing entry is modified or removed. -/
theorem C5_append_then_load :
    (∀ (fs : LogFile) (e : EvalEntry),
      load_log (append_evaluation fs e) = load_log fs ++ [e]) ∧
    load_log none = [] ∧
    (∀ e₁ e₂ e₃ : EvalEntry,
      load_log (append_evaluation (append_evaluation (append_evaluation none e₁) e₂) e₃) =
        [e₁, e₂, e₃]) := by
  refine ⟨fun fs e => rfl, rfl, fun e₁ e₂ e₃ => rfl⟩

/-- C6 counterexample: `load_ideas` does no shape validation. A file holding
the valid JSON document `[]` — which is not of the expected
name→object-of-strings shape — is returned as-is instead of failing with
`CorruptDataError`. -/
theorem C6_claim_counterexample :
    expectedShape (JsonValue.arr []) = false ∧
    load_ideas (FileState.valid (JsonValue.arr [])) = Except.ok (JsonValue.arr []) ∧
    load_ideas (FileState.valid (JsonValue.arr [])) ≠ Except.error LoadError.jsonDecodeError := by
  refine ⟨rfl, rfl, ?_⟩
  intro h
  exact Except.noConfusion h

/-- C6 (amended): `load_ideas` returns the parsed JSON document whenever the
file exists and parses — regardless of its shape, which is never validated;
when the file is absent it returns the built-in seed ideas, each with every
fixed heading mapped to the empty string; and when the file exists but is not
syntactically valid JSON, the parse error propagates uncaught rather than
being silently swallowed. -/
theorem C6_load_ideas_behavior :
    load_ideas FileState.absent = Except.ok seedIdeas ∧
    (∀ j : JsonValue, load_ideas (FileState.valid j) = Except.ok j) ∧
    load_ideas FileState.malformed = Except.error LoadError.jsonDecodeError ∧
    seedIdeas = JsonValue.obj (seedNames.map
      (fun n => (n, JsonValue.obj (HEADINGS.map (fun h => (h, JsonValue.str "")))))) := by
  exact ⟨rfl, fun j => rfl, rfl, rfl⟩

/-- C7: with no API-key credential configured the evaluation pipeline yields
the distinct unavailable outcome (the client constructor fails before any
request); with a credential, a transport or remote failure propagates to the
caller carrying its cause; the two error outcomes are different values, and
neither is caught anywhere in the source, so both reach the caller. -/
theorem C7_evaluation_errors
    (remote : ChatRequest → Except String String)
    (key md cause : String) (deep : Bool)
    (hfail : remote (mkRequest md deep) = Except.error cause) :
    runEvaluation none remote md deep = EvalOutcome.unavailable ∧
    runEvaluation (some key) remote md deep = EvalOutcome.evalFailed cause ∧
    (EvalOutcome.unavailable : EvalOutcome String) ≠ EvalOutcome.evalFailed cause := by
  refine ⟨rfl, ?_, ?_⟩
  · rw [runEvaluation, gpt_evaluate, hfail]
  · intro h
    exact EvalOutcome.noConfusion h

/-- Witness for C7 with a remote oracle that always fails: the missing-key and
transport-failure outcomes are produced and distinct. -/
theorem C7_evaluation_errors_witness :
    runEvaluation none (fun _ => Except.error "boom") "md" false = EvalOutcome.unavailable ∧
    runEvaluation (some "sk") (fun _ => Except.error "boom") "md" false =
      EvalOutcome.evalFailed "boom" ∧
    (EvalOutcome.unavailable : EvalOutcome String) ≠ EvalOutcome.evalFailed "boom" :=
  C7_evaluation_errors (fun _ => Except.error "boom") "sk" "md" "boom" false rfl

/-- C8: the evaluation request consists of exactly three ordered messages —
the system instruction, the fixed founder/context message, and the rendered
markdown last — with a response ceiling of 800 tokens in quick mode and 1400
in deep mode, and the deep variant's system instruction is the base
instruction extended by the passage telling the model to think step-by-step
and cite concrete numbers. -/
theorem C8_request_shape (md : String) (deep : Bool) :
    gpt_evaluate = (fun remote md deep => remote (mkRequest md deep)) ∧
    (mkRequest md deep).messages.length = 3 ∧
    (mkRequest md deep).messages =
      [⟨"system", systemPrompt deep⟩, ⟨"user", FOUNDER_PROFILE⟩, ⟨"user", md⟩] ∧
    (mkRequest md false).max_tokens = 800 ∧
    (mkRequest md true).max_tokens = 1400 ∧
    systemPrompt false = SYSTEM_BASE ∧
    systemPrompt true = SYSTEM_BASE ++ DEEP_SUFFIX ∧
    hasSubstr DEEP_SUFFIX.toList "step-by-step".toList = true ∧
    (mkRequest md deep).model = "gpt-4.5-preview" := by
  refine ⟨rfl, rfl, rfl, rfl, rfl, rfl, rfl, by decide, rfl⟩
